import Mathlib

/-!
Verification of the association-analysis routine of the NCEMS ML webinar
repository (notebook section 1.1).  The notebook builds a 2x2 contingency
table from a pandas DataFrame with two boolean columns, NativeEnt and
NonRefoldable, and feeds it to a two-sided exact association test.
A pandas cell of a boolean column is modelled as Option Bool: some b is a
proper boolean value, none is a missing value (NaN).  The elementwise
comparison column == True used by the notebook is false on a missing value,
which the model reproduces with an equality test against some true.
-/

namespace NCEMS

/-- Observation record: one row of the data table, with the two boolean
attributes NativeEnt (feature) and NonRefoldable (outcome).  A missing
value (NaN in the source data) is modelled as none. -/
structure Record where
  nativeEnt : Option Bool
  nonRefoldable : Option Bool
deriving DecidableEq, Fintype

/-- Predicate of the notebook filter for cell a:
data1[NativeEnt] == True and data1[NonRefoldable] == True. -/
def inCellA (r : Record) : Bool :=
  r.nativeEnt == some true && r.nonRefoldable == some true

/-- Predicate of the notebook filter for cell b:
data1[NativeEnt] == True and data1[NonRefoldable] == False. -/
def inCellB (r : Record) : Bool :=
  r.nativeEnt == some true && r.nonRefoldable == some false

/-- Predicate of the notebook filter for cell c:
data1[NativeEnt] == False and data1[NonRefoldable] == True. -/
def inCellC (r : Record) : Bool :=
  r.nativeEnt == some false && r.nonRefoldable == some true

/-- Predicate of the notebook filter for cell d:
data1[NativeEnt] == False and data1[NonRefoldable] == False. -/
def inCellD (r : Record) : Bool :=
  r.nativeEnt == some false && r.nonRefoldable == some false

/-- Cell a of the notebook: a = len(data1[both columns == True]). -/
def cellA (data : List Record) : ℕ := (data.filter inCellA).length

/-- Cell b of the notebook: feature true, outcome false. -/
def cellB (data : List Record) : ℕ := (data.filter inCellB).length

/-- Cell c of the notebook: feature false, outcome true. -/
def cellC (data : List Record) : ℕ := (data.filter inCellC).length

/-- Cell d of the notebook: feature false, outcome false. -/
def cellD (data : List Record) : ℕ := (data.filter inCellD).length

/-- A record is complete when both attributes carry a proper boolean. -/
def completeRecord (r : Record) : Bool :=
  r.nativeEnt.isSome && r.nonRefoldable.isSome

/-- The complete records of an observation set, in order. -/
def completeRecords (data : List Record) : List Record :=
  data.filter completeRecord

/-- Modelled from the spec: the builder reports the number of records
dropped for having a missing value in either attribute (the notebook has
no such diagnostic; the spec section 4.1 requires it). -/
def droppedRecordCount (data : List Record) : ℕ :=
  (data.filter (fun r => !(completeRecord r))).length

/-- Error taxonomy of the spec, section 7. -/
inductive AnalyzerError where
  | invalidInput
  | undefinedStatistic
deriving DecidableEq

/-- Contingency table of four non-negative integer counts. -/
structure ContingencyTable where
  a : ℕ
  b : ℕ
  c : ℕ
  d : ℕ
deriving DecidableEq

/-- Modelled from the spec: the Contingency Table Builder of section 4.1.
The four cells come from the notebook filters; the failure on an
observation set that is empty after exclusion is required by the spec and
absent from the notebook. -/
def buildTable (data : List Record) : Except AnalyzerError ContingencyTable :=
  if completeRecords data = [] then Except.error AnalyzerError.invalidInput
  else Except.ok ⟨cellA data, cellB data, cellC data, cellD data⟩

/-- Value of the odds ratio: a finite rational or the infinite sentinel. -/
inductive OddsRatioValue where
  | finite (q : ℚ)
  | infinite
deriving DecidableEq

/-- Modelled from the spec: the Odds Ratio Calculator of section 4.2.  The
notebook delegates this computation to a library call whose source is not
in the repository.  Denominator zero with numerator positive yields the
infinite sentinel; numerator and denominator both zero is the undefined
0/0 case and fails. -/
def oddsRatioOf (a b c d : ℕ) : Except AnalyzerError OddsRatioValue :=
  if b * c = 0 then
    if a * d = 0 then Except.error AnalyzerError.undefinedStatistic
    else Except.ok OddsRatioValue.infinite
  else Except.ok (OddsRatioValue.finite (((a * d : ℕ) : ℚ) / ((b * c : ℕ) : ℚ)))

/-- Modelled from the spec: hypergeometric probability, under fixed margins
r1 (first row total), r2 (second row total) and c1 (first column total), of
the table whose top-left cell is x.  Probabilities are exact rationals, as
the spec allows in section 4.3. -/
def hyperProb (r1 r2 c1 x : ℕ) : ℚ :=
  ((r1.choose x * r2.choose (c1 - x) : ℕ) : ℚ) / (((r1 + r2).choose c1 : ℕ) : ℚ)

/-- Top-left cells of the tables realizable with margins r1, r2, c1. -/
def tableSupport (r1 r2 c1 : ℕ) : Finset ℕ :=
  (Finset.range (min r1 c1 + 1)).filter fun x => c1 ≤ x + r2

/-- Two-sided exact p-value under fixed margins: the sum of the
hypergeometric probabilities of the realizable tables whose probability is
at most the probability of the observed top-left cell x0. -/
def fisherPCore (r1 r2 c1 x0 : ℕ) : ℚ :=
  ∑ x ∈ (tableSupport r1 r2 c1).filter
      (fun x => hyperProb r1 r2 c1 x ≤ hyperProb r1 r2 c1 x0),
    hyperProb r1 r2 c1 x

/-- Modelled from the spec: the two-sided Exact Association Test of
section 4.3, applied to the table with cells a, b, c, d.  The library
implementation called by the notebook is not in the repository. -/
def fisher_exact (a b c d : ℕ) : ℚ :=
  fisherPCore (a + b) (c + d) (a + c) a

/-- Hypergeometric probability of a table given as an explicit quadruple
of cells, computed from its own margins. -/
def tableProb (t : ℕ × ℕ × ℕ × ℕ) : ℚ :=
  (((t.1 + t.2.1).choose t.1 * (t.2.2.1 + t.2.2.2).choose t.2.2.1 : ℕ) : ℚ) /
    (((t.1 + t.2.1 + t.2.2.1 + t.2.2.2).choose (t.1 + t.2.2.1) : ℕ) : ℚ)

/-- All tables, as quadruples of cells, with row margins r1, r2 and first
column margin c1. -/
def tablesWithMargins (r1 r2 c1 : ℕ) : Finset (ℕ × ℕ × ℕ × ℕ) :=
  ((Finset.range (r1 + 1)) ×ˢ (Finset.range (r1 + 1)) ×ˢ
      (Finset.range (r2 + 1)) ×ˢ (Finset.range (r2 + 1))).filter
    fun t => t.1 + t.2.1 = r1 ∧ t.2.2.1 + t.2.2.2 = r2 ∧ t.1 + t.2.2.1 = c1

lemma length_filter_cons (p : Record → Bool) (r : Record) (l : List Record) :
    ((r :: l).filter p).length = (l.filter p).length + (if p r = true then 1 else 0) := by
  by_cases h : p r = true <;> simp [List.filter_cons, h]

lemma inCellA_complete : ∀ r : Record, inCellA r = true → completeRecord r = true := by decide

lemma inCellB_complete : ∀ r : Record, inCellB r = true → completeRecord r = true := by decide

lemma inCellC_complete : ∀ r : Record, inCellC r = true → completeRecord r = true := by decide

lemma inCellD_complete : ∀ r : Record, inCellD r = true → completeRecord r = true := by decide

lemma filter_completeRecords (p : Record → Bool)
    (hp : ∀ r : Record, p r = true → completeRecord r = true) (data : List Record) :
    (completeRecords data).filter p = data.filter p := by
  induction data with
  | nil => rfl
  | cons r l ih =>
    by_cases h : completeRecord r = true
    · by_cases hpr : p r = true <;>
        simp [completeRecords, List.filter_cons, h, hpr] at ih ⊢ <;> exact ih
    · have hpr : p r = false := by
        cases hpf : p r
        · rfl
        · exact absurd (hp r hpf) h
      simpa [completeRecords, List.filter_cons, h, hpr] using ih

lemma dropped_add_complete (data : List Record) :
    droppedRecordCount data + (completeRecords data).length = data.length := by
  induction data with
  | nil => rfl
  | cons r l ih =>
    by_cases h : completeRecord r = true <;>
      simp [droppedRecordCount, completeRecords, List.filter_cons, h] at ih ⊢ <;> omega

/-- C3: the builder partitions by exact boolean equality: cell a counts
records with both attributes equal to the boolean true, cell b feature
true and outcome false, cell c feature false and outcome true, cell d
both false.  Characterized by the empty and cons counting equations. -/
theorem cells_count_by_boolean_equality (data : List Record) (r : Record) :
    cellA [] = 0 ∧ cellB [] = 0 ∧ cellC [] = 0 ∧ cellD [] = 0 ∧
    cellA (r :: data) = cellA data +
      (if r.nativeEnt = some true ∧ r.nonRefoldable = some true then 1 else 0) ∧
    cellB (r :: data) = cellB data +
      (if r.nativeEnt = some true ∧ r.nonRefoldable = some false then 1 else 0) ∧
    cellC (r :: data) = cellC data +
      (if r.nativeEnt = some false ∧ r.nonRefoldable = some true then 1 else 0) ∧
    cellD (r :: data) = cellD data +
      (if r.nativeEnt = some false ∧ r.nonRefoldable = some false then 1 else 0) := by
  refine ⟨rfl, rfl, rfl, rfl, ?_, ?_, ?_, ?_⟩ <;>
    simp only [cellA, cellB, cellC, cellD, length_filter_cons] <;>
    congr 1 <;>
    simp [inCellA, inCellB, inCellC, inCellD]

/-- C4: the four cells sum to the number of complete records, and each
cell is a non-negative integer. -/
theorem cells_sum_eq_complete_count (data : List Record) :
    cellA data + cellB data + cellC data + cellD data = (completeRecords data).length ∧
    0 ≤ cellA data ∧ 0 ≤ cellB data ∧ 0 ≤ cellC data ∧ 0 ≤ cellD data := by
  refine ⟨?_, Nat.zero_le _, Nat.zero_le _, Nat.zero_le _, Nat.zero_le _⟩
  induction data with
  | nil => rfl
  | cons r l ih =>
    have hone : (if inCellA r = true then 1 else 0) + (if inCellB r = true then 1 else 0) +
        (if inCellC r = true then 1 else 0) + (if inCellD r = true then 1 else 0) =
        (if completeRecord r = true then 1 else 0) := by
      revert r; decide
    simp only [cellA, cellB, cellC, cellD, completeRecords, length_filter_cons] at ih ⊢
    omega

/-- C7: an observation set that is empty after exclusion of incomplete
records makes the builder fail with the invalid-input error. -/
theorem buildTable_empty_after_exclusion (data : List Record)
    (h : completeRecords data = []) :
    buildTable data = Except.error AnalyzerError.invalidInput := by
  simp [buildTable, h]

theorem buildTable_empty_after_exclusion_witness :
    buildTable [⟨none, some true⟩] = Except.error AnalyzerError.invalidInput :=
  buildTable_empty_after_exclusion [⟨none, some true⟩] (by decide)

/-- C9: records with a missing value in either attribute are excluded from
all four cells (restricting to the complete records changes no cell, so a
missing value is never coerced to false), and the dropped records are
counted by droppedRecordCount, which complements the complete count. -/
theorem missing_values_excluded_and_counted (data : List Record) :
    cellA (completeRecords data) = cellA data ∧
    cellB (completeRecords data) = cellB data ∧
    cellC (completeRecords data) = cellC data ∧
    cellD (completeRecords data) = cellD data ∧
    droppedRecordCount data + (completeRecords data).length = data.length := by
  refine ⟨?_, ?_, ?_, ?_, dropped_add_complete data⟩
  · simp [cellA, filter_completeRecords inCellA inCellA_complete]
  · simp [cellB, filter_completeRecords inCellB inCellB_complete]
  · simp [cellC, filter_completeRecords inCellC inCellC_complete]
  · simp [cellD, filter_completeRecords inCellD inCellD_complete]

/-- C10: on every single record the four cell predicates are pairwise
disjoint and jointly cover exactly the records whose two attribute values
are both booleans: a record with two proper boolean values satisfies
exactly one predicate, a record with a missing value satisfies none. -/
theorem cell_predicates_exactly_one (r : Record) :
    (inCellA r).toNat + (inCellB r).toNat + (inCellC r).toNat + (inCellD r).toNat
      = (completeRecord r).toNat := by
  revert r; decide

/-- C2: with both b and c positive the odds ratio is the finite rational
a times d over b times c; at the table a 30, b 18, c 16, d 65 it is
1950 over 288. -/
theorem oddsRatioOf_eq_ad_div_bc (a b c d : ℕ) (hb : 0 < b) (hc : 0 < c) :
    oddsRatioOf a b c d =
      Except.ok (OddsRatioValue.finite (((a * d : ℕ) : ℚ) / ((b * c : ℕ) : ℚ))) ∧
    oddsRatioOf 30 18 16 65 = Except.ok (OddsRatioValue.finite ((1950 : ℚ) / 288)) := by
  constructor
  · have hbc : b * c ≠ 0 := Nat.mul_ne_zero (by omega) (by omega)
    simp [oddsRatioOf, hbc]
  · rfl

theorem oddsRatioOf_eq_ad_div_bc_witness :
    oddsRatioOf 30 18 16 65 = Except.ok (OddsRatioValue.finite ((1950 : ℚ) / 288)) :=
  (oddsRatioOf_eq_ad_div_bc 30 18 16 65 (by decide) (by decide)).2

/-- C5: when one full margin of the table is zero, so that numerator and
denominator of the odds ratio both vanish, the odds ratio fails with the
undefined-statistic error, while the builder still computes and exposes
the four cells. -/
theorem oddsRatioOf_zero_margin_undefined (a b c d : ℕ)
    (hnum : a * d = 0) (hden : b * c = 0) (data : List Record)
    (hne : completeRecords data ≠ [])
    (ha : cellA data = a) (hb : cellB data = b) (hc : cellC data = c) (hd : cellD data = d) :
    oddsRatioOf a b c d = Except.error AnalyzerError.undefinedStatistic ∧
    buildTable data = Except.ok ⟨a, b, c, d⟩ := by
  constructor
  · simp [oddsRatioOf, hnum, hden]
  · simp [buildTable, hne, ha, hb, hc, hd]

theorem oddsRatioOf_zero_margin_undefined_witness :
    oddsRatioOf 0 0 1 1 = Except.error AnalyzerError.undefinedStatistic ∧
    buildTable [⟨some false, some true⟩, ⟨some false, some false⟩] =
      Except.ok ⟨0, 0, 1, 1⟩ :=
  oddsRatioOf_zero_margin_undefined 0 0 1 1 rfl rfl
    [⟨some false, some true⟩, ⟨some false, some false⟩]
    (by decide) (by decide) (by decide) (by decide) (by decide)

/-- C6: with b or c zero but a and d positive the calculator returns the
defined infinite sentinel, not an error, and the sentinel is distinct from
every finite value; in particular at a 10, b 0, c 5, d 10. -/
theorem oddsRatioOf_infinite_sentinel (a b c d : ℕ)
    (h : b = 0 ∨ c = 0) (ha : 0 < a) (hd : 0 < d) :
    oddsRatioOf a b c d = Except.ok OddsRatioValue.infinite ∧
    oddsRatioOf 10 0 5 10 = Except.ok OddsRatioValue.infinite ∧
    ∀ q : ℚ, OddsRatioValue.infinite ≠ OddsRatioValue.finite q := by
  refine ⟨?_, by rfl, fun q => by simp⟩
  have hbc : b * c = 0 := by rcases h with h | h <;> simp [h]
  have had : a * d ≠ 0 := Nat.mul_ne_zero (by omega) (by omega)
  simp [oddsRatioOf, hbc, had]

theorem oddsRatioOf_infinite_sentinel_witness :
    oddsRatioOf 10 0 5 10 = Except.ok OddsRatioValue.infinite ∧
    oddsRatioOf 10 0 5 10 = Except.ok OddsRatioValue.infinite ∧
    ∀ q : ℚ, OddsRatioValue.infinite ≠ OddsRatioValue.finite q :=
  oddsRatioOf_infinite_sentinel 10 0 5 10 (Or.inl rfl) (by decide) (by decide)

lemma mem_tableSupport (r1 r2 c1 x : ℕ) :
    x ∈ tableSupport r1 r2 c1 ↔ x ≤ r1 ∧ x ≤ c1 ∧ c1 ≤ x + r2 := by
  simp only [tableSupport, Finset.mem_filter, Finset.mem_range, Nat.lt_succ_iff]
  omega

lemma hyperProb_nonneg (r1 r2 c1 x : ℕ) : 0 ≤ hyperProb r1 r2 c1 x := by
  unfold hyperProb
  positivity

lemma hyperProb_pos (r1 r2 c1 x : ℕ) (hc : c1 ≤ r1 + r2)
    (hx : x ∈ tableSupport r1 r2 c1) : 0 < hyperProb r1 r2 c1 x := by
  rw [mem_tableSupport] at hx
  unfold hyperProb
  apply div_pos
  · exact_mod_cast Nat.mul_pos (Nat.choose_pos hx.1) (Nat.choose_pos (by omega))
  · exact_mod_cast Nat.choose_pos hc

lemma sum_tableSupport_choose (r1 r2 c1 : ℕ) :
    ∑ x ∈ tableSupport r1 r2 c1, r1.choose x * r2.choose (c1 - x) =
      (r1 + r2).choose c1 := by
  have h1 : ∑ x ∈ tableSupport r1 r2 c1, r1.choose x * r2.choose (c1 - x) =
      ∑ x ∈ Finset.range (c1 + 1), r1.choose x * r2.choose (c1 - x) := by
    apply Finset.sum_subset
    · intro x hx
      rw [mem_tableSupport] at hx
      exact Finset.mem_range.2 (by omega)
    · intro x hx hns
      rw [Finset.mem_range] at hx
      rw [mem_tableSupport] at hns
      rcases Nat.lt_or_ge r1 x with h | h
      · rw [Nat.choose_eq_zero_of_lt h, Nat.zero_mul]
      · have hr2 : r2 < c1 - x := by omega
        rw [Nat.choose_eq_zero_of_lt hr2, Nat.mul_zero]
  rw [h1, Nat.add_choose_eq,
    Finset.Nat.sum_antidiagonal_eq_sum_range_succ (fun i j => r1.choose i * r2.choose j)]

lemma sum_hyperProb_eq_one (r1 r2 c1 : ℕ) (hc : c1 ≤ r1 + r2) :
    ∑ x ∈ tableSupport r1 r2 c1, hyperProb r1 r2 c1 x = 1 := by
  have hD : (0 : ℚ) < (((r1 + r2).choose c1 : ℕ) : ℚ) := by
    exact_mod_cast Nat.choose_pos hc
  unfold hyperProb
  rw [← Finset.sum_div, div_eq_one_iff_eq (ne_of_gt hD)]
  norm_cast
  exact sum_tableSupport_choose r1 r2 c1

lemma fisherPCore_le_one (r1 r2 c1 x0 : ℕ) (hc : c1 ≤ r1 + r2) :
    fisherPCore r1 r2 c1 x0 ≤ 1 := by
  unfold fisherPCore
  calc ∑ x ∈ (tableSupport r1 r2 c1).filter
        (fun x => hyperProb r1 r2 c1 x ≤ hyperProb r1 r2 c1 x0), hyperProb r1 r2 c1 x
      ≤ ∑ x ∈ tableSupport r1 r2 c1, hyperProb r1 r2 c1 x :=
        Finset.sum_le_sum_of_subset_of_nonneg (Finset.filter_subset _ _)
          (fun i _ _ => hyperProb_nonneg r1 r2 c1 i)
    _ = 1 := sum_hyperProb_eq_one r1 r2 c1 hc

lemma fisherPCore_pos (r1 r2 c1 x0 : ℕ) (hc : c1 ≤ r1 + r2)
    (h0 : x0 ∈ tableSupport r1 r2 c1) : 0 < fisherPCore r1 r2 c1 x0 := by
  unfold fisherPCore
  apply Finset.sum_pos'
  · intro i _
    exact hyperProb_nonneg r1 r2 c1 i
  · exact ⟨x0, Finset.mem_filter.2 ⟨h0, le_refl _⟩, hyperProb_pos r1 r2 c1 x0 hc h0⟩

lemma obs_mem_tableSupport (a b c d : ℕ) :
    a ∈ tableSupport (a + b) (c + d) (a + c) := by
  rw [mem_tableSupport]
  omega

lemma hyperProb_reflect (r1 r2 c1 x : ℕ) (hc : c1 ≤ r1 + r2)
    (hx1 : x ≤ r1) (hx2 : x ≤ c1) (hx3 : c1 ≤ x + r2) :
    hyperProb r2 r1 (r1 + r2 - c1) (x + r2 - c1) = hyperProb r1 r2 c1 x := by
  unfold hyperProb
  have e1 : r2.choose (x + r2 - c1) = r2.choose (c1 - x) := by
    rw [show x + r2 - c1 = r2 - (c1 - x) by omega, Nat.choose_symm (by omega)]
  have e2 : r1.choose (r1 + r2 - c1 - (x + r2 - c1)) = r1.choose x := by
    rw [show r1 + r2 - c1 - (x + r2 - c1) = r1 - x by omega, Nat.choose_symm hx1]
  have e3 : (r2 + r1).choose (r1 + r2 - c1) = (r1 + r2).choose c1 := by
    rw [Nat.add_comm r2 r1, Nat.choose_symm hc]
  rw [e1, e2, e3, Nat.mul_comm]

lemma tableSupport_reflect (r1 r2 c1 x : ℕ) (hx : x ∈ tableSupport r1 r2 c1) :
    x + r2 - c1 ∈ tableSupport r2 r1 (r1 + r2 - c1) := by
  rw [mem_tableSupport] at hx ⊢
  omega

lemma fisherPCore_reflect (r1 r2 c1 x0 : ℕ) (hc : c1 ≤ r1 + r2)
    (h0 : x0 ∈ tableSupport r1 r2 c1) :
    fisherPCore r1 r2 c1 x0 = fisherPCore r2 r1 (r1 + r2 - c1) (x0 + r2 - c1) := by
  have hb0 := (mem_tableSupport r1 r2 c1 x0).1 h0
  unfold fisherPCore
  refine Finset.sum_nbij' (fun x => x + r2 - c1) (fun y => y + r1 - (r1 + r2 - c1))
    ?_ ?_ ?_ ?_ ?_
  · intro x hx
    rw [Finset.mem_filter] at hx ⊢
    obtain ⟨hxs, hxp⟩ := hx
    have hb := (mem_tableSupport r1 r2 c1 x).1 hxs
    refine ⟨tableSupport_reflect r1 r2 c1 x hxs, ?_⟩
    rw [hyperProb_reflect r1 r2 c1 x hc hb.1 hb.2.1 hb.2.2,
      hyperProb_reflect r1 r2 c1 x0 hc hb0.1 hb0.2.1 hb0.2.2]
    exact hxp
  · intro y hy
    rw [Finset.mem_filter] at hy ⊢
    obtain ⟨hys, hyp⟩ := hy
    have hb := (mem_tableSupport r2 r1 (r1 + r2 - c1) y).1 hys
    have hjmem : y + r1 - (r1 + r2 - c1) ∈ tableSupport r1 r2 c1 := by
      rw [mem_tableSupport]
      omega
    refine ⟨hjmem, ?_⟩
    have hjb := (mem_tableSupport r1 r2 c1 _).1 hjmem
    have h1 := hyperProb_reflect r1 r2 c1 (y + r1 - (r1 + r2 - c1)) hc
      hjb.1 hjb.2.1 hjb.2.2
    rw [show y + r1 - (r1 + r2 - c1) + r2 - c1 = y by omega] at h1
    rw [← h1]
    rw [hyperProb_reflect r1 r2 c1 x0 hc hb0.1 hb0.2.1 hb0.2.2] at hyp
    exact hyp
  · intro x hx
    rw [Finset.mem_filter] at hx
    have hb := (mem_tableSupport r1 r2 c1 x).1 hx.1
    show x + r2 - c1 + r1 - (r1 + r2 - c1) = x
    omega
  · intro y hy
    rw [Finset.mem_filter] at hy
    have hb := (mem_tableSupport r2 r1 (r1 + r2 - c1) y).1 hy.1
    show y + r1 - (r1 + r2 - c1) + r2 - c1 = y
    omega
  · intro x hx
    rw [Finset.mem_filter] at hx
    have hb := (mem_tableSupport r1 r2 c1 x).1 hx.1
    exact (hyperProb_reflect r1 r2 c1 x hc hb.1 hb.2.1 hb.2.2).symm

/-- C8: the two-sided p-value is invariant under simultaneously swapping
the rows and the columns of the table, that is under replacing the table
a, b, c, d by d, c, b, a. -/
theorem fisher_exact_swap_symmetric (a b c d : ℕ) :
    fisher_exact d c b a = fisher_exact a b c d := by
  unfold fisher_exact
  have h := fisherPCore_reflect (a + b) (c + d) (a + c) a (by omega)
    (obs_mem_tableSupport a b c d)
  rw [show a + b + (c + d) - (a + c) = b + d by omega,
    show a + (c + d) - (a + c) = d by omega] at h
  rw [Nat.add_comm d c, Nat.add_comm b a, Nat.add_comm d b]
  exact h.symm

lemma mem_tablesWithMargins (r1 r2 c1 : ℕ) (t : ℕ × ℕ × ℕ × ℕ) :
    t ∈ tablesWithMargins r1 r2 c1 ↔
      t.1 + t.2.1 = r1 ∧ t.2.2.1 + t.2.2.2 = r2 ∧ t.1 + t.2.2.1 = c1 := by
  obtain ⟨w, x, y, z⟩ := t
  simp [tablesWithMargins, Nat.lt_succ_iff]
  omega

lemma tableProb_eq_hyperProb (w x y z : ℕ) :
    tableProb (w, x, y, z) = hyperProb (w + x) (y + z) (w + y) w := by
  show (((w + x).choose w * (y + z).choose y : ℕ) : ℚ) /
      (((w + x + y + z).choose (w + y) : ℕ) : ℚ) =
    (((w + x).choose w * (y + z).choose (w + y - w) : ℕ) : ℚ) /
      (((w + x + (y + z)).choose (w + y) : ℕ) : ℚ)
  rw [Nat.add_sub_cancel_left, Nat.add_assoc (w + x) y z]

lemma tableProb_reflectMap (r1 r2 c1 x : ℕ) (h1 : x ≤ r1) (h2 : x ≤ c1)
    (h3 : c1 ≤ x + r2) :
    tableProb (x, r1 - x, c1 - x, r2 - (c1 - x)) = hyperProb r1 r2 c1 x := by
  rw [tableProb_eq_hyperProb, show x + (r1 - x) = r1 by omega,
    show c1 - x + (r2 - (c1 - x)) = r2 by omega, show x + (c1 - x) = c1 by omega]

lemma tableProb_of_margins (r1 r2 c1 : ℕ) (t : ℕ × ℕ × ℕ × ℕ)
    (ht : t ∈ tablesWithMargins r1 r2 c1) : tableProb t = hyperProb r1 r2 c1 t.1 := by
  obtain ⟨w, x, y, z⟩ := t
  rw [mem_tablesWithMargins] at ht
  obtain ⟨h1, h2, h3⟩ := ht
  show tableProb (w, x, y, z) = hyperProb r1 r2 c1 w
  rw [tableProb_eq_hyperProb, show w + x = r1 from h1, show y + z = r2 from h2,
    show w + y = c1 from h3]

lemma fisher_eq_sum_tables (a b c d : ℕ) :
    fisher_exact a b c d =
      ∑ t ∈ (tablesWithMargins (a + b) (c + d) (a + c)).filter
        (fun t => tableProb t ≤ tableProb (a, b, c, d)), tableProb t := by
  have hobs : tableProb (a, b, c, d) = hyperProb (a + b) (c + d) (a + c) a :=
    tableProb_eq_hyperProb a b c d
  unfold fisher_exact fisherPCore
  refine Finset.sum_nbij'
    (fun x => (x, a + b - x, a + c - x, c + d - (a + c - x))) (fun t => t.1)
    ?_ ?_ ?_ ?_ ?_
  · intro x hx
    rw [Finset.mem_filter] at hx ⊢
    obtain ⟨hxs, hxp⟩ := hx
    obtain ⟨hb1, hb2, hb3⟩ := (mem_tableSupport (a + b) (c + d) (a + c) x).1 hxs
    constructor
    · rw [mem_tablesWithMargins]
      show x + (a + b - x) = a + b ∧ (a + c - x) + (c + d - (a + c - x)) = c + d ∧
        x + (a + c - x) = a + c
      omega
    · rw [show tableProb (x, a + b - x, a + c - x, c + d - (a + c - x)) =
          hyperProb (a + b) (c + d) (a + c) x from
          tableProb_reflectMap (a + b) (c + d) (a + c) x hb1 hb2 hb3, hobs]
      exact hxp
  · intro t ht
    obtain ⟨w, x, y, z⟩ := t
    rw [Finset.mem_filter] at ht ⊢
    obtain ⟨hts, htp⟩ := ht
    have hm := (mem_tablesWithMargins (a + b) (c + d) (a + c) (w, x, y, z)).1 hts
    have hm1 : w + x = a + b := hm.1
    have hm2 : y + z = c + d := hm.2.1
    have hm3 : w + y = a + c := hm.2.2
    constructor
    · rw [mem_tableSupport]
      show w ≤ a + b ∧ w ≤ a + c ∧ a + c ≤ w + (c + d)
      omega
    · have hpt : tableProb (w, x, y, z) = hyperProb (a + b) (c + d) (a + c) w :=
        tableProb_of_margins (a + b) (c + d) (a + c) (w, x, y, z) hts
      show hyperProb (a + b) (c + d) (a + c) w ≤ hyperProb (a + b) (c + d) (a + c) a
      rw [← hpt, ← hobs]
      exact htp
  · intro x hx
    rfl
  · intro t ht
    obtain ⟨w, x, y, z⟩ := t
    rw [Finset.mem_filter] at ht
    have hm := (mem_tablesWithMargins (a + b) (c + d) (a + c) (w, x, y, z)).1 ht.1
    have hm1 : w + x = a + b := hm.1
    have hm2 : y + z = c + d := hm.2.1
    have hm3 : w + y = a + c := hm.2.2
    show (w, a + b - w, a + c - w, c + d - (a + c - w)) = (w, x, y, z)
    simp only [Prod.mk.injEq]
    refine ⟨trivial, ?_, ?_, ?_⟩ <;> omega
  · intro x hx
    rw [Finset.mem_filter] at hx
    obtain ⟨hb1, hb2, hb3⟩ := (mem_tableSupport (a + b) (c + d) (a + c) x).1 hx.1
    exact (tableProb_reflectMap (a + b) (c + d) (a + c) x hb1 hb2 hb3).symm

/-- C1 counterexample: a two-sided p-value exactly equal to zero is not
reachable for any table, because the observed table always contributes its
own strictly positive hypergeometric probability to the sum. -/
theorem fisher_exact_zero_unreachable :
    ¬ ∃ a b c d : ℕ, fisher_exact a b c d = 0 := by
  rintro ⟨a, b, c, d, h⟩
  have hpos : 0 < fisherPCore (a + b) (c + d) (a + c) a :=
    fisherPCore_pos (a + b) (c + d) (a + c) a (by omega) (obs_mem_tableSupport a b c d)
  simp only [fisher_exact] at h
  exact absurd h (ne_of_gt hpos)

/-- C1 amended: the two-sided p-value equals the sum, over all tables with
the same row and column margins as the observed table, of the
hypergeometric probabilities of the tables whose probability is at most
the probability of the observed table; it lies in the half-open interval
from zero excluded to one included, and one is reached at a degenerate
extreme, while exactly zero is unreachable in exact arithmetic. -/
theorem fisher_exact_two_sided_sum_and_bounds (a b c d : ℕ) :
    (fisher_exact a b c d =
      ∑ t ∈ (tablesWithMargins (a + b) (c + d) (a + c)).filter
        (fun t => tableProb t ≤ tableProb (a, b, c, d)), tableProb t) ∧
    0 < fisher_exact a b c d ∧ fisher_exact a b c d ≤ 1 ∧
    fisher_exact 0 0 0 0 = 1 := by
  refine ⟨fisher_eq_sum_tables a b c d, ?_, ?_, ?_⟩
  · exact fisherPCore_pos (a + b) (c + d) (a + c) a (by omega)
      (obs_mem_tableSupport a b c d)
  · exact fisherPCore_le_one (a + b) (c + d) (a + c) a (by omega)
  · have hsup : tableSupport 0 0 0 = {0} := by decide
    show fisherPCore 0 0 0 0 = 1
    unfold fisherPCore
    rw [hsup, Finset.filter_singleton, if_pos (le_refl (hyperProb 0 0 0 0)),
      Finset.sum_singleton]
    simp [hyperProb]

end NCEMS
